import Mathlib

/-!
Shallow embedding of the iCloud-Private-Relay membership classifier from
`check_private_relay_usage.py`.

The script builds, at startup, a two-level index `relay_nets` from a list of
CIDR strings: a dict keyed by IP version ('4' / '6'), each value a
`defaultdict(set)` mapping a netmask integer to the set of network-address
integers occurring with that netmask.  The query routine
`is_ip_private_relay` parses its raw input with `ipaddress.ip_address`,
returns `False` on a `ValueError`, and otherwise scans the sub-index of the
parsed address's family, returning `True` on the first netmask whose
bitwise-AND with the address lands in the corresponding set.

Python's `ipaddress.ip_network` is called with its default `strict=True`:
an entry whose host bits are non-zero raises `ValueError` ("has host bits
set"), as does an entry that is not a syntactically valid network at all.
`ipaddress.ip_address` accepts either a textual address or a bare integer;
for an integer `n` it yields an `IPv4Address` when `0 ≤ n < 2^32`, an
`IPv6Address` when `0 ≤ n < 2^128`, and raises `ValueError` otherwise.

Addresses and netmasks are modelled as `Nat` (Python's unbounded ints);
Python sets become duplicate-free lists, the insertion-ordered dict becomes
an association list, and the exception raised during the module-level build
loop becomes an `Except` value.
-/

namespace PrivateRelay

/-- Result of a successful `ipaddress.ip_address` call: the address family
(4 or 6) together with the integer value of the address. -/
structure IPAddr where
  version : Nat
  value : Nat
deriving DecidableEq, Repr

/-- Result of a successful `ipaddress.ip_network` call: the family, the
integer network address and the integer netmask, matching the fields
`net.version`, `int(net.network_address)` and `int(net.netmask)` read by
the script. -/
structure PyNetwork where
  version : Nat
  network_address : Nat
  netmask : Nat
deriving DecidableEq, Repr

/-- Raw input to `ipaddress.ip_address`: a string that parses as an IPv4
address of value `n`, a string that parses as an IPv6 address of value `n`,
a bare Python integer, or a string that parses as neither family. -/
inductive IpInput where
  | addr4 (n : Nat)
  | addr6 (n : Nat)
  | intInput (n : Int)
  | invalid
deriving DecidableEq, Repr

/-- `ipaddress.ip_address`, returning `none` where Python raises
`ValueError`.  A textual IPv4 address always has a value below `2^32` and a
textual IPv6 address a value below `2^128`; a bare integer is tried first
as IPv4 (`0 ≤ n < 2^32`), then as IPv6 (`0 ≤ n < 2^128`). -/
def ip_address : IpInput → Option IPAddr
  | .addr4 n => if n < 2 ^ 32 then some ⟨4, n⟩ else none
  | .addr6 n => if n < 2 ^ 128 then some ⟨6, n⟩ else none
  | .intInput n =>
      if 0 ≤ n ∧ n < 2 ^ 32 then some ⟨4, n.toNat⟩
      else if 0 ≤ n ∧ n < 2 ^ 128 then some ⟨6, n.toNat⟩
      else none
  | .invalid => none

/-- Raw input to `ipaddress.ip_network`: a textual IPv4 CIDR `a/p` with
address value `addr` and prefix length `prefixLen`, the IPv6 analogue, or a
string that is not a valid network at all. -/
inductive NetInput where
  | net4 (addr : Nat) (prefixLen : Nat)
  | net6 (addr : Nat) (prefixLen : Nat)
  | invalid
deriving DecidableEq, Repr

/-- The netmask of a prefix of length `p` in an address family of width
`width` bits: the top `p` bits set, the remaining `width - p` bits zero. -/
def netmaskOf (width p : Nat) : Nat :=
  2 ^ width - 2 ^ (width - p)

/-- The `ValueError` raised by `ipaddress.ip_network(entry)`: either the
entry is not a valid address/prefix pair at all, or (with the default
`strict=True`) its host bits are non-zero.  The offending entry is carried
in the error. -/
inductive LoadError where
  | notANetwork (e : NetInput)
  | hostBitsSet (e : NetInput)
deriving DecidableEq, Repr

/-- The entry a load error identifies as offending. -/
def LoadError.entry : LoadError → NetInput
  | .notANetwork e => e
  | .hostBitsSet e => e

/-- `ipaddress.ip_network` with its default `strict=True`: a syntactically
valid `addr/prefixLen` whose host bits are all zero yields the network;
non-zero host bits raise "has host bits set"; anything else raises "does
not appear to be an IPv4 or IPv6 network". -/
def ip_network : NetInput → Except LoadError PyNetwork
  | .net4 a p =>
      if a < 2 ^ 32 ∧ p ≤ 32 then
        if a &&& netmaskOf 32 p = a then .ok ⟨4, a, netmaskOf 32 p⟩
        else .error (.hostBitsSet (.net4 a p))
      else .error (.notANetwork (.net4 a p))
  | .net6 a p =>
      if a < 2 ^ 128 ∧ p ≤ 128 then
        if a &&& netmaskOf 128 p = a then .ok ⟨6, a, netmaskOf 128 p⟩
        else .error (.hostBitsSet (.net6 a p))
      else .error (.notANetwork (.net6 a p))
  | .invalid => .error (.notANetwork .invalid)

/-- One family's sub-index: Python's insertion-ordered
`defaultdict(set)` mapping a netmask to the set of network addresses seen
with it, as an association list whose values are duplicate-free lists. -/
abbrev SubIndex := List (Nat × List Nat)

/-- The two-level `relay_nets` structure: one sub-index per family. -/
structure RelayNets where
  v4 : SubIndex
  v6 : SubIndex
deriving DecidableEq, Repr

/-- Python `set.add`: a no-op when the element is already present. -/
def setAdd (s : List Nat) (a : Nat) : List Nat :=
  if a ∈ s then s else s ++ [a]

/-- Insertion into one sub-index: the `defaultdict` materialises an empty
set for a fresh netmask key, then `set.add` puts the address in. -/
def subInsert : SubIndex → Nat → Nat → SubIndex
  | [], m, a => [(m, [a])]
  | (k, s) :: rest, m, a =>
      if k = m then (k, setAdd s a) :: rest
      else (k, s) :: subInsert rest m a

/-- The body of the build loop for one parsed network:
`relay_nets[str(net.version)][net.netmask].add(int(net.network_address))`. -/
def RelayNets.insertNet (rn : RelayNets) (net : PyNetwork) : RelayNets :=
  if net.version = 4 then
    { rn with v4 := subInsert rn.v4 net.netmask net.network_address }
  else
    { rn with v6 := subInsert rn.v6 net.netmask net.network_address }

/-- The build loop over the remaining entries, starting from an
accumulated index; a `ValueError` from `ip_network` aborts the whole
run. -/
def buildFrom (rn : RelayNets) : List NetInput → Except LoadError RelayNets
  | [] => .ok rn
  | e :: rest =>
      match ip_network e with
      | .error err => .error err
      | .ok net => buildFrom (rn.insertNet net) rest

/-- Construction of `relay_nets` from the full list of range entries,
starting from the empty two-family dict. -/
def relay_nets_build (l : List NetInput) : Except LoadError RelayNets :=
  buildFrom ⟨[], []⟩ l

/-- The query loop: for each `(netmask, range_set)` pair in insertion
order, return `true` as soon as `bin_ip &&& netmask` is in the set. -/
def checkPairs (bin_ip : Nat) : SubIndex → Bool
  | [] => false
  | (m, s) :: rest =>
      if bin_ip &&& m ∈ s then true else checkPairs bin_ip rest

/-- `is_ip_private_relay`: parse the raw input; on `ValueError` return
`False`; otherwise scan the sub-index of the parsed family. -/
def is_ip_private_relay (rn : RelayNets) (ip_raw : IpInput) : Bool :=
  match ip_address ip_raw with
  | some ip => checkPairs ip.value (if ip.version = 4 then rn.v4 else rn.v6)
  | none => false

/-- The sub-index the family dispatch `relay_nets[str(ip.version)]`
selects. -/
def RelayNets.sub (rn : RelayNets) (v : Nat) : SubIndex :=
  if v = 4 then rn.v4 else rn.v6

/-- Membership of a `(netmask, address)` pair somewhere in a sub-index. -/
def SubIndex.memP (si : SubIndex) (m a : Nat) : Prop :=
  ∃ s, (m, s) ∈ si ∧ a ∈ s

theorem mem_setAdd {s : List Nat} {a a' : Nat} :
    a' ∈ setAdd s a ↔ a' ∈ s ∨ a' = a := by
  unfold setAdd
  split
  · rename_i h
    constructor
    · exact Or.inl
    · rintro (h' | rfl)
      · exact h'
      · exact h
  · simp

theorem memP_nil {m a : Nat} : SubIndex.memP [] m a ↔ False := by
  simp [SubIndex.memP]

theorem memP_cons {k : Nat} {s : List Nat} {rest : SubIndex} {m a : Nat} :
    SubIndex.memP ((k, s) :: rest) m a ↔
      (m = k ∧ a ∈ s) ∨ SubIndex.memP rest m a := by
  unfold SubIndex.memP
  constructor
  · rintro ⟨s', hs', ha⟩
    rcases List.mem_cons.mp hs' with h | h
    · rw [Prod.mk.injEq] at h
      obtain ⟨rfl, rfl⟩ := h
      exact Or.inl ⟨rfl, ha⟩
    · exact Or.inr ⟨s', h, ha⟩
  · rintro (⟨rfl, ha⟩ | ⟨s', h, ha⟩)
    · exact ⟨s, List.mem_cons_self _ _, ha⟩
    · exact ⟨s', List.mem_cons_of_mem _ h, ha⟩

theorem subInsert_memP (si : SubIndex) (m a m' a' : Nat) :
    (subInsert si m a).memP m' a' ↔ si.memP m' a' ∨ (m' = m ∧ a' = a) := by
  induction si with
  | nil => simp [subInsert, memP_cons, memP_nil]
  | cons p rest ih =>
    obtain ⟨k, s⟩ := p
    by_cases hk : k = m
    · subst hk
      have hstep : subInsert ((k, s) :: rest) k a = (k, setAdd s a) :: rest := by
        simp [subInsert]
      rw [hstep]
      simp only [memP_cons, mem_setAdd]
      tauto
    · simp only [subInsert, if_neg hk, memP_cons, ih]
      tauto

theorem ip_network_ok_version {e : NetInput} {net : PyNetwork}
    (h : ip_network e = Except.ok net) : net.version = 4 ∨ net.version = 6 := by
  cases e with
  | net4 a p =>
    simp only [ip_network] at h
    split at h
    · split at h
      · injection h with h'
        subst h'
        exact Or.inl rfl
      · exact Except.noConfusion h
    · exact Except.noConfusion h
  | net6 a p =>
    simp only [ip_network] at h
    split at h
    · split at h
      · injection h with h'
        subst h'
        exact Or.inr rfl
      · exact Except.noConfusion h
    · exact Except.noConfusion h
  | invalid => exact Except.noConfusion h

theorem ip_network_ok_masked {e : NetInput} {net : PyNetwork}
    (h : ip_network e = Except.ok net) :
    net.network_address &&& net.netmask = net.network_address := by
  cases e with
  | net4 a p =>
    simp only [ip_network] at h
    split at h
    · split at h
      · rename_i hmask
        injection h with h'
        subst h'
        exact hmask
      · exact Except.noConfusion h
    · exact Except.noConfusion h
  | net6 a p =>
    simp only [ip_network] at h
    split at h
    · split at h
      · rename_i hmask
        injection h with h'
        subst h'
        exact hmask
      · exact Except.noConfusion h
    · exact Except.noConfusion h
  | invalid => exact Except.noConfusion h

theorem ip_network_error_entry {e : NetInput} {err : LoadError}
    (h : ip_network e = Except.error err) : err.entry = e := by
  cases e with
  | net4 a p =>
    simp only [ip_network] at h
    split at h
    · split at h
      · exact Except.noConfusion h
      · injection h with h'
        subst h'
        rfl
    · injection h with h'
      subst h'
      rfl
  | net6 a p =>
    simp only [ip_network] at h
    split at h
    · split at h
      · exact Except.noConfusion h
      · injection h with h'
        subst h'
        rfl
    · injection h with h'
      subst h'
      rfl
  | invalid =>
    simp only [ip_network] at h
    injection h with h'
    subst h'
    rfl

theorem sub_four (rn : RelayNets) : rn.sub 4 = rn.v4 := rfl

theorem sub_six (rn : RelayNets) : rn.sub 6 = rn.v6 := rfl

theorem insertNet_sub_memP (rn : RelayNets) (net : PyNetwork) {v : Nat}
    (hv : v = 4 ∨ v = 6) (hnet : net.version = 4 ∨ net.version = 6)
    (m a : Nat) :
    ((rn.insertNet net).sub v).memP m a ↔
      (rn.sub v).memP m a ∨
        (net.version = v ∧ m = net.netmask ∧ a = net.network_address) := by
  rcases hnet with h4 | h6
  · rcases hv with rfl | rfl
    · have hsub : (rn.insertNet net).sub 4 =
          subInsert rn.v4 net.netmask net.network_address := by
        simp [RelayNets.insertNet, RelayNets.sub, h4]
      rw [hsub, sub_four, subInsert_memP]
      simp [h4]
    · have hsub : (rn.insertNet net).sub 6 = rn.v6 := by
        simp [RelayNets.insertNet, RelayNets.sub, h4]
      have hne : ¬(net.version = 6) := by
        rw [h4]
        norm_num
      rw [hsub, sub_six]
      simp [hne]
  · have hne4 : ¬(net.version = 4) := by
      rw [h6]
      norm_num
    rcases hv with rfl | rfl
    · have hsub : (rn.insertNet net).sub 4 = rn.v4 := by
        simp [RelayNets.insertNet, RelayNets.sub, hne4]
      rw [hsub, sub_four]
      simp [hne4]
    · have hsub : (rn.insertNet net).sub 6 =
          subInsert rn.v6 net.netmask net.network_address := by
        simp [RelayNets.insertNet, RelayNets.sub, hne4]
      rw [hsub, sub_six, subInsert_memP]
      simp [h6]

/-- A range entry of family `v` and netmask/network pair matching the
integer address `n` exists among the loaded entries `l`. -/
def matchesRange (l : List NetInput) (v n : Nat) : Prop :=
  ∃ e ∈ l, ∃ net, ip_network e = Except.ok net ∧ net.version = v ∧
    n &&& net.netmask = net.network_address

theorem buildFrom_ok_memP :
    ∀ (l : List NetInput) (rn rn' : RelayNets), buildFrom rn l = Except.ok rn' →
      ∀ {v : Nat}, v = 4 ∨ v = 6 → ∀ m a,
        (rn'.sub v).memP m a ↔
          (rn.sub v).memP m a ∨
            ∃ e ∈ l, ∃ net, ip_network e = Except.ok net ∧ net.version = v ∧
              m = net.netmask ∧ a = net.network_address := by
  intro l
  induction l with
  | nil =>
    intro rn rn' h v hv m a
    injection h with h'
    subst h'
    simp
  | cons e rest ih =>
    intro rn rn' h v hv m a
    simp only [buildFrom] at h
    split at h
    · exact Except.noConfusion h
    · rename_i net hne
      rw [ih _ _ h hv m a, insertNet_sub_memP rn net hv (ip_network_ok_version hne) m a]
      simp only [List.mem_cons]
      constructor
      · rintro ((hmem | ⟨hver, hm, ha⟩) | ⟨e', he', net', hok, hprop⟩)
        · exact Or.inl hmem
        · exact Or.inr ⟨e, Or.inl rfl, net, hne, hver, hm, ha⟩
        · exact Or.inr ⟨e', Or.inr he', net', hok, hprop⟩
      · rintro (hmem | ⟨e', he', net', hok, hprop⟩)
        · exact Or.inl (Or.inl hmem)
        · rcases he' with rfl | he'
          · rw [hne] at hok
            injection hok with hok'
            subst hok'
            exact Or.inl (Or.inr hprop)
          · exact Or.inr ⟨e', he', net', hok, hprop⟩

theorem relay_build_memP {l : List NetInput} {rn : RelayNets}
    (h : relay_nets_build l = Except.ok rn) {v : Nat} (hv : v = 4 ∨ v = 6)
    (m a : Nat) :
    (rn.sub v).memP m a ↔
      ∃ e ∈ l, ∃ net, ip_network e = Except.ok net ∧ net.version = v ∧
        m = net.netmask ∧ a = net.network_address := by
  rw [buildFrom_ok_memP l ⟨[], []⟩ rn h hv m a]
  rcases hv with rfl | rfl <;> simp [RelayNets.sub, SubIndex.memP]

theorem checkPairs_iff (n : Nat) (si : SubIndex) :
    checkPairs n si = true ↔ ∃ m, si.memP m (n &&& m) := by
  induction si with
  | nil => simp [checkPairs, memP_nil]
  | cons p rest ih =>
    obtain ⟨k, s⟩ := p
    simp only [checkPairs, memP_cons]
    split
    · rename_i hmem
      constructor
      · intro _
        exact ⟨k, Or.inl ⟨rfl, hmem⟩⟩
      · intro _
        rfl
    · rename_i hmem
      rw [ih]
      constructor
      · rintro ⟨m, h⟩
        exact ⟨m, Or.inr h⟩
      · rintro ⟨m, (⟨rfl, h⟩ | h)⟩
        · exact absurd h hmem
        · exact ⟨m, h⟩

theorem ip_address_some_version {inp : IpInput} {ip : IPAddr}
    (h : ip_address inp = some ip) : ip.version = 4 ∨ ip.version = 6 := by
  cases inp with
  | addr4 n =>
    simp only [ip_address] at h
    split at h
    · injection h with h'
      subst h'
      exact Or.inl rfl
    · exact Option.noConfusion h
  | addr6 n =>
    simp only [ip_address] at h
    split at h
    · injection h with h'
      subst h'
      exact Or.inr rfl
    · exact Option.noConfusion h
  | intInput n =>
    simp only [ip_address] at h
    split at h
    · injection h with h'
      subst h'
      exact Or.inl rfl
    · split at h
      · injection h with h'
        subst h'
        exact Or.inr rfl
      · exact Option.noConfusion h
  | invalid => exact Option.noConfusion h

theorem query_none {rn : RelayNets} {inp : IpInput}
    (hp : ip_address inp = none) : is_ip_private_relay rn inp = false := by
  unfold is_ip_private_relay
  rw [hp]

theorem query_some {rn : RelayNets} {inp : IpInput} {ip : IPAddr}
    (hp : ip_address inp = some ip) :
    is_ip_private_relay rn inp =
      checkPairs ip.value (if ip.version = 4 then rn.v4 else rn.v6) := by
  unfold is_ip_private_relay
  rw [hp]

theorem query_true_iff {l : List NetInput} {rn : RelayNets} {inp : IpInput}
    {ip : IPAddr} (hb : relay_nets_build l = Except.ok rn)
    (hp : ip_address inp = some ip) :
    is_ip_private_relay rn inp = true ↔ matchesRange l ip.version ip.value := by
  have hv := ip_address_some_version hp
  rw [query_some hp]
  have hsub : (if ip.version = 4 then rn.v4 else rn.v6) = rn.sub ip.version := rfl
  rw [hsub, checkPairs_iff]
  unfold matchesRange
  constructor
  · rintro ⟨m, hm⟩
    rw [relay_build_memP hb hv] at hm
    obtain ⟨e, he, net, hok, hver, hmask, haddr⟩ := hm
    refine ⟨e, he, net, hok, hver, ?_⟩
    rw [← hmask]
    exact haddr
  · rintro ⟨e, he, net, hok, hver, hmatch⟩
    refine ⟨net.netmask, ?_⟩
    rw [relay_build_memP hb hv]
    exact ⟨e, he, net, hok, hver, rfl, hmatch⟩

theorem buildFrom_ok_all :
    ∀ (l : List NetInput) (rn rn' : RelayNets), buildFrom rn l = Except.ok rn' →
      ∀ e ∈ l, ∃ net, ip_network e = Except.ok net := by
  intro l
  induction l with
  | nil =>
    intro rn rn' _ e he
    exact absurd he (List.not_mem_nil e)
  | cons e rest ih =>
    intro rn rn' h e' he'
    simp only [buildFrom] at h
    split at h
    · exact Except.noConfusion h
    · rename_i net hne
      rcases List.mem_cons.mp he' with rfl | he'
      · exact ⟨net, hne⟩
      · exact ih _ _ h e' he'

theorem buildFrom_ok_of_all :
    ∀ (l : List NetInput) (rn : RelayNets),
      (∀ e ∈ l, ∃ net, ip_network e = Except.ok net) →
      ∃ rn', buildFrom rn l = Except.ok rn' := by
  intro l
  induction l with
  | nil =>
    intro rn _
    exact ⟨rn, rfl⟩
  | cons e rest ih =>
    intro rn hall
    obtain ⟨net, hne⟩ := hall e (List.mem_cons_self e rest)
    obtain ⟨rn', hrn'⟩ := ih (rn.insertNet net) fun e' he' =>
      hall e' (List.mem_cons_of_mem e he')
    refine ⟨rn', ?_⟩
    simp only [buildFrom]
    rw [hne]
    exact hrn'

theorem buildFrom_error_entry :
    ∀ (l : List NetInput) (rn : RelayNets) (err : LoadError),
      buildFrom rn l = Except.error err →
      err.entry ∈ l ∧ ip_network err.entry = Except.error err := by
  intro l
  induction l with
  | nil =>
    intro rn err h
    exact Except.noConfusion h
  | cons e rest ih =>
    intro rn err h
    simp only [buildFrom] at h
    split at h
    · rename_i err' hne
      injection h with h'
      subst h'
      have hent := ip_network_error_entry hne
      rw [hent]
      exact ⟨List.mem_cons_self e rest, hne⟩
    · rename_i net hne
      obtain ⟨h1, h2⟩ := ih _ _ h
      exact ⟨List.mem_cons_of_mem e h1, h2⟩

/-- Whether the module-level build loop runs to completion on `l` (Python:
no `ValueError` escapes the `for` loop over the range list). -/
def buildOk (l : List NetInput) : Bool :=
  match relay_nets_build l with
  | .ok _ => true
  | .error _ => false

theorem buildOk_iff_all (l : List NetInput) :
    buildOk l = true ↔ ∀ e ∈ l, ∃ net, ip_network e = Except.ok net := by
  unfold buildOk
  cases hres : relay_nets_build l with
  | ok rn =>
    constructor
    · intro _
      exact buildFrom_ok_all l ⟨[], []⟩ rn hres
    · intro _
      rfl
  | error err =>
    constructor
    · intro h
      exact Bool.noConfusion h
    · intro hall
      obtain ⟨rn', hrn'⟩ := buildFrom_ok_of_all l ⟨[], []⟩ hall
      rw [show relay_nets_build l = buildFrom ⟨[], []⟩ l from rfl, hrn'] at hres
      exact Except.noConfusion hres

/-- The range list `["203.0.113.0/24"]`. -/
def sampleList4 : List NetInput := [NetInput.net4 3405803776 24]

/-- The index built from `sampleList4`. -/
def sampleIdx4 : RelayNets := ⟨[(4294967040, [3405803776])], []⟩

/-- The range list `["::/0"]` (matches every IPv6 address). -/
def sampleList6 : List NetInput := [NetInput.net6 0 0]

/-- The index built from `sampleList6`. -/
def sampleIdx6 : RelayNets := ⟨[], [(0, [0])]⟩

/-- The range list `["10.0.0.0/8", "10.1.0.0/16"]`. -/
def sampleListA : List NetInput :=
  [NetInput.net4 167772160 8, NetInput.net4 167837696 16]

/-- `sampleListA` reversed. -/
def sampleListB : List NetInput :=
  [NetInput.net4 167837696 16, NetInput.net4 167772160 8]

/-- The index built from `sampleListA`. -/
def sampleIdxA : RelayNets :=
  ⟨[(4278190080, [167772160]), (4294901760, [167837696])], []⟩

/-- The index built from `sampleListB`. -/
def sampleIdxB : RelayNets :=
  ⟨[(4294901760, [167837696]), (4278190080, [167772160])], []⟩

/-- C1: for every built index and every input that parses as a valid IPv4
or IPv6 address, `is_ip_private_relay` returns `true` iff some loaded
range of the same address family has `address &&& netmask =
network_address`; moreover the scan over `(netmask, address_set)` pairs
returns `true` at the first matching pair without looking further. -/
theorem relay_classifier_true_iff (l : List NetInput) (rn : RelayNets)
    (inp : IpInput) (ip : IPAddr) (hb : relay_nets_build l = Except.ok rn)
    (hp : ip_address inp = some ip) :
    (is_ip_private_relay rn inp = true ↔
      ∃ e ∈ l, ∃ net, ip_network e = Except.ok net ∧ net.version = ip.version ∧
        ip.value &&& net.netmask = net.network_address) ∧
    ∀ (n m : Nat) (s : List Nat) (rest : SubIndex),
      n &&& m ∈ s → checkPairs n ((m, s) :: rest) = true := by
  constructor
  · exact query_true_iff hb hp
  · intro n m s rest h
    unfold checkPairs
    rw [if_pos h]

/-- Witness for C1: ranges `["203.0.113.0/24"]`, query `203.0.113.17`. -/
theorem relay_classifier_true_iff_witness :
    is_ip_private_relay sampleIdx4 (IpInput.addr4 3405803793) = true :=
  (relay_classifier_true_iff sampleList4 sampleIdx4 (IpInput.addr4 3405803793)
      ⟨4, 3405803793⟩ rfl (by decide)).1.mpr
    ⟨NetInput.net4 3405803776 24, by decide, ⟨4, 3405803776, 4294967040⟩,
      rfl, rfl, by decide⟩

/-- C2: an input that fails to parse always classifies as `false`, with no
error (the model is a total `Bool`-valued function), and repeating the
same malformed input any number of times yields all-`false`. -/
theorem relay_malformed_false (rn : RelayNets) (inp : IpInput)
    (hp : ip_address inp = none) :
    is_ip_private_relay rn inp = false ∧
      ∀ k : Nat, (List.replicate k inp).map (is_ip_private_relay rn) =
        List.replicate k false := by
  refine ⟨query_none hp, fun k => ?_⟩
  rw [List.map_replicate, query_none hp]

/-- Witness for C2 on a string that parses as neither family. -/
theorem relay_malformed_false_witness :
    is_ip_private_relay sampleIdx4 IpInput.invalid = false :=
  (relay_malformed_false sampleIdx4 IpInput.invalid rfl).1

/-- C3 fails on the code: the loader calls `ipaddress.ip_network` with its
default `strict=True`, so the entry `203.0.113.1/24`, whose textual
address has non-zero host bits, is rejected with a "has host bits set"
error instead of being accepted and masked. -/
theorem relay_hostbits_rejected_cx :
    relay_nets_build [NetInput.net4 3405803777 24] =
      Except.error (LoadError.hostBitsSet (NetInput.net4 3405803777 24)) :=
  rfl

/-- C3 amended: every entry the loader accepts satisfies
`network_address = address &&& netmask`, but an entry with non-zero host
bits is not accepted and masked: `strict=True` rejects it with a
host-bits error. -/
theorem relay_loader_masked_amended :
    (∀ (a p : Nat) (net : PyNetwork),
        ip_network (NetInput.net4 a p) = Except.ok net →
        net.network_address = a &&& net.netmask) ∧
    (∀ (a p : Nat) (net : PyNetwork),
        ip_network (NetInput.net6 a p) = Except.ok net →
        net.network_address = a &&& net.netmask) ∧
    ∀ (a p : Nat), a < 2 ^ 32 → p ≤ 32 → a &&& netmaskOf 32 p ≠ a →
      ip_network (NetInput.net4 a p) =
        Except.error (LoadError.hostBitsSet (NetInput.net4 a p)) := by
  refine ⟨?_, ?_, ?_⟩
  · intro a p net h
    simp only [ip_network] at h
    split at h
    · split at h
      · rename_i hmask
        injection h with h'
        subst h'
        exact hmask.symm
      · exact Except.noConfusion h
    · exact Except.noConfusion h
  · intro a p net h
    simp only [ip_network] at h
    split at h
    · split at h
      · rename_i hmask
        injection h with h'
        subst h'
        exact hmask.symm
      · exact Except.noConfusion h
    · exact Except.noConfusion h
  · intro a p h1 h2 h3
    simp only [ip_network]
    rw [if_pos ⟨h1, h2⟩, if_neg h3]

/-- Witness for the amended C3 at the host-bits entry `203.0.113.1/24`. -/
theorem relay_loader_masked_amended_witness :
    ip_network (NetInput.net4 3405803777 24) =
      Except.error (LoadError.hostBitsSet (NetInput.net4 3405803777 24)) :=
  relay_loader_masked_amended.2.2 3405803777 24 (by decide) (by decide)
    (by decide)

/-- C4: a range entry that fails to parse fails the whole build — no index
value is ever produced — and the resulting error carries an offending
entry of the list. -/
theorem relay_build_all_or_nothing (l : List NetInput) (e : NetInput)
    (err : LoadError) (he : e ∈ l) (hbad : ip_network e = Except.error err) :
    (∀ rn, relay_nets_build l ≠ Except.ok rn) ∧
    ∃ err', relay_nets_build l = Except.error err' ∧ err'.entry ∈ l ∧
      ip_network err'.entry = Except.error err' := by
  have hne : ∀ rn, relay_nets_build l ≠ Except.ok rn := by
    intro rn hok
    obtain ⟨net, hnet⟩ := buildFrom_ok_all l ⟨[], []⟩ rn hok e he
    rw [hbad] at hnet
    exact Except.noConfusion hnet
  refine ⟨hne, ?_⟩
  cases hres : relay_nets_build l with
  | ok rn => exact absurd hres (hne rn)
  | error err' =>
    obtain ⟨h1, h2⟩ := buildFrom_error_entry l ⟨[], []⟩ err' hres
    exact ⟨err', rfl, h1, h2⟩

/-- Witness for C4 on a one-entry list whose entry has host bits set. -/
theorem relay_build_all_or_nothing_witness :
    ∃ err', relay_nets_build [NetInput.net4 3405803777 24] =
        Except.error err' ∧
      err'.entry ∈ [NetInput.net4 3405803777 24] ∧
      ip_network err'.entry = Except.error err' :=
  (relay_build_all_or_nothing [NetInput.net4 3405803777 24]
      (NetInput.net4 3405803777 24)
      (LoadError.hostBitsSet (NetInput.net4 3405803777 24))
      (by decide) rfl).2

/-- C5: every `(netmask, address)` entry of a successfully built index is
pre-masked: `address &&& netmask = address`. -/
theorem relay_index_premasked (l : List NetInput) (rn : RelayNets)
    (hb : relay_nets_build l = Except.ok rn) :
    ∀ p ∈ rn.v4 ++ rn.v6, ∀ a ∈ p.2, a &&& p.1 = a := by
  intro p hp a ha
  obtain ⟨m, s⟩ := p
  rcases List.mem_append.mp hp with h | h
  · have hmem : (rn.sub 4).memP m a := ⟨s, h, ha⟩
    rw [relay_build_memP hb (Or.inl rfl)] at hmem
    obtain ⟨e, he, net, hok, hver, rfl, rfl⟩ := hmem
    exact ip_network_ok_masked hok
  · have hmem : (rn.sub 6).memP m a := ⟨s, h, ha⟩
    rw [relay_build_memP hb (Or.inr rfl)] at hmem
    obtain ⟨e, he, net, hok, hver, rfl, rfl⟩ := hmem
    exact ip_network_ok_masked hok

/-- Witness for C5 on the index built from `["203.0.113.0/24"]`. -/
theorem relay_index_premasked_witness :
    3405803776 &&& 4294967040 = 3405803776 :=
  relay_index_premasked sampleList4 sampleIdx4 rfl
    (4294967040, [3405803776]) (by decide) 3405803776 (by decide)

/-- C6: a list containing the same entry twice builds exactly when the
deduplicated list builds (duplicates never raise), and the two indexes
answer every query identically. -/
theorem relay_duplicate_idempotent (pre mid post : List NetInput)
    (e : NetInput) :
    buildOk (pre ++ e :: mid ++ e :: post) =
      buildOk (pre ++ e :: mid ++ post) ∧
    ∀ rn1 rn2,
      relay_nets_build (pre ++ e :: mid ++ e :: post) = Except.ok rn1 →
      relay_nets_build (pre ++ e :: mid ++ post) = Except.ok rn2 →
      ∀ inp, is_ip_private_relay rn1 inp = is_ip_private_relay rn2 inp := by
  have hmemiff : ∀ x : NetInput,
      x ∈ pre ++ e :: mid ++ e :: post ↔ x ∈ pre ++ e :: mid ++ post := by
    intro x
    simp only [List.mem_append, List.mem_cons]
    tauto
  constructor
  · rw [Bool.eq_iff_iff, buildOk_iff_all, buildOk_iff_all]
    constructor
    · intro h x hx
      exact h x ((hmemiff x).mpr hx)
    · intro h x hx
      exact h x ((hmemiff x).mp hx)
  · intro rn1 rn2 h1 h2 inp
    cases hp : ip_address inp with
    | none => rw [query_none hp, query_none hp]
    | some ip =>
      rw [Bool.eq_iff_iff, query_true_iff h1 hp, query_true_iff h2 hp]
      unfold matchesRange
      constructor
      · rintro ⟨x, hx, hrest⟩
        exact ⟨x, (hmemiff x).mp hx, hrest⟩
      · rintro ⟨x, hx, hrest⟩
        exact ⟨x, (hmemiff x).mpr hx, hrest⟩

/-- Witness for C6: `["203.0.113.0/24"]` loaded twice and once. -/
theorem relay_duplicate_idempotent_witness :
    buildOk [NetInput.net4 3405803776 24, NetInput.net4 3405803776 24] =
      buildOk [NetInput.net4 3405803776 24] ∧
    is_ip_private_relay sampleIdx4 (IpInput.addr4 3405803793) =
      is_ip_private_relay sampleIdx4 (IpInput.addr4 3405803793) :=
  ⟨(relay_duplicate_idempotent [] [] [] (NetInput.net4 3405803776 24)).1,
    (relay_duplicate_idempotent [] [] [] (NetInput.net4 3405803776 24)).2
      sampleIdx4 sampleIdx4 rfl rfl
      (IpInput.addr4 3405803793)⟩

/-- C7: indexes built from a list and from any permutation of it answer
every query identically. -/
theorem relay_order_independent (l1 l2 : List NetInput) (hperm : l1.Perm l2)
    (rn1 rn2 : RelayNets) (h1 : relay_nets_build l1 = Except.ok rn1)
    (h2 : relay_nets_build l2 = Except.ok rn2) (inp : IpInput) :
    is_ip_private_relay rn1 inp = is_ip_private_relay rn2 inp := by
  cases hp : ip_address inp with
  | none => rw [query_none hp, query_none hp]
  | some ip =>
    rw [Bool.eq_iff_iff, query_true_iff h1 hp, query_true_iff h2 hp]
    unfold matchesRange
    constructor
    · rintro ⟨x, hx, hrest⟩
      exact ⟨x, hperm.mem_iff.mp hx, hrest⟩
    · rintro ⟨x, hx, hrest⟩
      exact ⟨x, hperm.mem_iff.mpr hx, hrest⟩

/-- Witness for C7: `["10.0.0.0/8", "10.1.0.0/16"]` and its reversal,
queried at `10.1.2.3`. -/
theorem relay_order_independent_witness :
    is_ip_private_relay sampleIdxA (IpInput.addr4 167838211) =
      is_ip_private_relay sampleIdxB (IpInput.addr4 167838211) :=
  relay_order_independent sampleListA sampleListB
    (List.Perm.swap (NetInput.net4 167837696 16) (NetInput.net4 167772160 8)
      [])
    sampleIdxA sampleIdxB rfl rfl (IpInput.addr4 167838211)

/-- C8: family isolation — an address that parses as IPv4 never matches
when every loaded range is IPv6, and vice versa, whatever the numeric
values. -/
theorem relay_family_isolation (l : List NetInput) (rn : RelayNets)
    (inp : IpInput) (n : Nat) (hb : relay_nets_build l = Except.ok rn) :
    (ip_address inp = some ⟨4, n⟩ →
      (∀ e ∈ l, ∀ net, ip_network e = Except.ok net → net.version = 6) →
      is_ip_private_relay rn inp = false) ∧
    (ip_address inp = some ⟨6, n⟩ →
      (∀ e ∈ l, ∀ net, ip_network e = Except.ok net → net.version = 4) →
      is_ip_private_relay rn inp = false) := by
  constructor
  · intro hp hall
    cases hq : is_ip_private_relay rn inp with
    | false => rfl
    | true =>
      exfalso
      obtain ⟨e, he, net, hok, hver, -⟩ := (query_true_iff hb hp).mp hq
      have hver' : net.version = 4 := hver
      have h6 := hall e he net hok
      omega
  · intro hp hall
    cases hq : is_ip_private_relay rn inp with
    | false => rfl
    | true =>
      exfalso
      obtain ⟨e, he, net, hok, hver, -⟩ := (query_true_iff hb hp).mp hq
      have hver' : net.version = 6 := hver
      have h4 := hall e he net hok
      omega

/-- Witness for C8: the IPv6 catch-all `::/0` matches no IPv4 address. -/
theorem relay_family_isolation_witness :
    is_ip_private_relay sampleIdx6 (IpInput.addr4 5) = false :=
  (relay_family_isolation sampleList6 sampleIdx6 (IpInput.addr4 5) 5
      rfl).1 (by decide)
    (by
      intro e he net hok
      have he' : e = NetInput.net6 0 0 := by
        simpa [sampleList6] using he
      subst he'
      have hnet : ip_network (NetInput.net6 0 0) = Except.ok ⟨6, 0, 0⟩ :=
        rfl
      rw [hnet] at hok
      injection hok with h'
      subst h'
      rfl)

/-- C9: the empty range list builds the empty index, whose every query
answers `false`; in general a query whose parsed family selects an empty
sub-index answers `false`. -/
theorem relay_empty_index_false :
    relay_nets_build [] = Except.ok ⟨[], []⟩ ∧
    (∀ inp, is_ip_private_relay ⟨[], []⟩ inp = false) ∧
    ∀ (rn : RelayNets) (inp : IpInput) (ip : IPAddr),
      ip_address inp = some ip →
      (if ip.version = 4 then rn.v4 else rn.v6) = [] →
      is_ip_private_relay rn inp = false := by
  refine ⟨rfl, ?_, ?_⟩
  · intro inp
    cases hp : ip_address inp with
    | none => exact query_none hp
    | some ip =>
      rw [query_some hp]
      split <;> rfl
  · intro rn inp ip hp hempty
    rw [query_some hp, hempty]
    rfl

/-- Witness for C9: an index with an empty IPv4 sub-index answers `false`
to an IPv4 query. -/
theorem relay_empty_index_false_witness :
    is_ip_private_relay ⟨[], [(0, [0])]⟩ (IpInput.addr4 7) = false :=
  relay_empty_index_false.2.2 ⟨[], [(0, [0])]⟩ (IpInput.addr4 7) ⟨4, 7⟩
    (by decide) (by decide)

/-- C10: a bare integer in `[0, 2^32)` is parsed as IPv4 and checked only
against the IPv4 sub-index; one in `[2^32, 2^128)` is parsed as IPv6 and
checked only against the IPv6 sub-index. -/
theorem relay_int_input_family (rn : RelayNets) (n : Int) :
    (0 ≤ n → n < 2 ^ 32 →
      ip_address (IpInput.intInput n) = some ⟨4, n.toNat⟩ ∧
      is_ip_private_relay rn (IpInput.intInput n) =
        checkPairs n.toNat rn.v4) ∧
    (2 ^ 32 ≤ n → n < 2 ^ 128 →
      ip_address (IpInput.intInput n) = some ⟨6, n.toNat⟩ ∧
      is_ip_private_relay rn (IpInput.intInput n) =
        checkPairs n.toNat rn.v6) := by
  constructor
  · intro h0 h32
    have hp : ip_address (IpInput.intInput n) = some ⟨4, n.toNat⟩ := by
      simp only [ip_address]
      rw [if_pos ⟨h0, h32⟩]
    refine ⟨hp, ?_⟩
    rw [query_some hp]
    rfl
  · intro h32 h128
    have h0 : (0 : Int) ≤ n := le_trans (by positivity) h32
    have hni : ¬(0 ≤ n ∧ n < 2 ^ 32) := by
      rintro ⟨-, h⟩
      exact absurd (lt_of_le_of_lt h32 h) (lt_irrefl _)
    have hp : ip_address (IpInput.intInput n) = some ⟨6, n.toNat⟩ := by
      simp only [ip_address]
      rw [if_neg hni, if_pos ⟨h0, h128⟩]
    refine ⟨hp, ?_⟩
    rw [query_some hp]
    rfl

/-- Witness for C10 at the integer form of `203.0.113.17`. -/
theorem relay_int_input_family_witness :
    ip_address (IpInput.intInput 3405803793) = some ⟨4, 3405803793⟩ ∧
    is_ip_private_relay sampleIdx4 (IpInput.intInput 3405803793) =
      checkPairs 3405803793 sampleIdx4.v4 :=
  (relay_int_input_family sampleIdx4 3405803793).1 (by decide) (by decide)

end PrivateRelay
